import Mathlib

/-!
Formal model of `src/transcribe_to_md.py`, a command-line batch
audio-to-Markdown transcription tool.

Modelling conventions:
* Filesystem paths are strings with `/` as separator (no trailing slash,
  no `.`/`..` components — `pathlib` normalisation is out of scope for the
  inputs exercised here).
* Python floats are modelled as rationals `ℚ`; the float operations used by
  the program (`//`, `%` with positive divisors, `int()` of their results)
  are exact on floats, so the rational model is faithful.
* The external speech engine (`model.transcribe`) is a parameter returning
  either a transcript or the raised exception's message; the wall clock
  (`datetime.now().strftime(...)`) is a string parameter.
* `main` is modelled as a function from the filesystem, engine, model-load
  outcome and argument vector to an exit code plus a trace of its
  observable effects (directory creation, warnings, written documents,
  per-file failure logs).
-/

namespace Whisper

/-- Python `str.upper()` (ASCII case mapping, which is all the program applies
it to: the extension constants), computed characterwise. -/
def strUpper (s : String) : String := String.mk (s.data.map Char.toUpper)

/-- Python truthiness of the `output_dir` value as used in `if output_dir:`:
`None` and the empty string are falsy. -/
def pyTruthy : Option String → Bool
  | none => false
  | some s => !s.isEmpty

/-- Split a character list at every occurrence of `sep` (like Python
`str.split(sep)`: at least one group, empty groups kept). -/
def splitOnSep (sep : Char) : List Char → List (List Char)
  | [] => [[]]
  | c :: cs =>
    let r := splitOnSep sep cs
    if c = sep then [] :: r else (c :: r.headD []) :: r.tail

/-- Join character-list groups with `'/'` (inverse of `splitOnSep '/'`). -/
def joinGroups : List (List Char) → List Char
  | [] => []
  | [g] => g
  | g :: gs => g ++ '/' :: joinGroups gs

/-- The `/`-separated components of a path string (the `parts` view that
`pathlib.PurePath` exposes). -/
def pathParts (p : String) : List String :=
  (splitOnSep '/' p.data).map String.mk

/-- Rebuild a path from its components, `'/'`-separated. -/
def joinParts (ps : List String) : String :=
  String.mk (joinGroups (ps.map String.data))

/-- Python `Path.name`: the final path component. -/
def nameOf (p : String) : String := (pathParts p).getLastD ""

/-- Index of the last `'.'` in a character list, if any. -/
def lastDotIdx (cs : List Char) : Option Nat :=
  ((cs.enum.filter (fun q => q.2 = '.')).map (fun q => q.1)).getLast?

/-- The `pathlib` split of a file name into stem and suffix: the suffix is
nonempty exactly when the last dot is neither the first nor the last
character of the name. -/
def stemAndSuffix (name : String) : String × String :=
  let cs := name.data
  match lastDotIdx cs with
  | some i =>
    if 0 < i ∧ i < cs.length - 1 then (String.mk (cs.take i), String.mk (cs.drop i))
    else (name, "")
  | none => (name, "")

/-- Python `Path.stem`. -/
def stemOf (p : String) : String := (stemAndSuffix (nameOf p)).1

/-- Python `Path(dir) / name` for a plain directory string and file name. -/
def pathJoin (dir name : String) : String := dir ++ "/" ++ name

/-- Python `Path.with_suffix(suf)`: replace the name's suffix (here always
called with `".md"`). -/
def with_suffix (p : String) (suf : String) : String :=
  joinParts ((pathParts p).dropLast ++ [stemOf p ++ suf])

/-- Python float `%` with the divisors used here (`3600`, `60`):
`a % b = a - b * (a // b)` with `//` the floor division. -/
def pymod (a b : ℚ) : ℚ := a - b * ⌊a / b⌋

/-- Python `f"{n:02d}"`: decimal rendering padded with `0` to width two. -/
def pad2 (n : ℤ) : String :=
  if 0 ≤ n ∧ n < 10 then "0" ++ toString n else toString n

/-- The function `format_timestamp` from the source.  `int(seconds // 3600)` is the floor
of `seconds / 3600` (exact: `//` floors, and `int()` of the integral result
is itself); `seconds % 3600` and `seconds % 60` are nonnegative (positive
divisor), so `int()` of them and of `(seconds % 3600) // 60` is their
floor. -/
def format_timestamp (seconds : ℚ) : String :=
  let hours : ℤ := ⌊seconds / 3600⌋
  let minutes : ℤ := ⌊pymod seconds 3600 / 60⌋
  let secs : ℤ := ⌊pymod seconds 60⌋
  if 0 < hours then
    pad2 hours ++ ":" ++ pad2 minutes ++ ":" ++ pad2 secs
  else
    pad2 minutes ++ ":" ++ pad2 secs

/-- One element of `result["segments"]`: `start`, `end` and `text`. -/
structure TranscriptSegment where
  start : ℚ
  «end» : ℚ
  text : String
  deriving DecidableEq

/-- The engine response as consumed by the program: `result.get('language', …)`,
`result["segments"]`, `result["text"]`. -/
structure Transcript where
  language : Option String
  segments : List TranscriptSegment
  text : String
  deriving DecidableEq

/-- The `md_lines` list built by `transcribe_to_markdown`: header block, then
two lines appended per segment by the loop, then the plain-text block.
`now` stands for `datetime.now().strftime('%Y-%m-%d %H:%M:%S')`. -/
def mdLines (audio_path : String) (result : Transcript) (now : String) : List String :=
  let init : List String :=
    ["# " ++ stemOf audio_path,
     "",
     "> 转录时间: " ++ now ++ "  ",
     "> 源文件: `" ++ nameOf audio_path ++ "`  ",
     "> 检测语言: " ++ result.language.getD "unknown",
     "",
     "---",
     "",
     "## 转录内容",
     ""]
  let withSegs := result.segments.foldl
    (fun acc segment =>
      acc ++ ["**[" ++ format_timestamp segment.start ++ " - " ++
                format_timestamp segment.«end» ++ "]** " ++ segment.text.trim,
              ""])
    init
  withSegs ++ ["---", "", "## 纯文本", "", result.text.trim, ""]

/-- Python `md_content = "\n".join(md_lines)`. -/
def md_content (audio_path : String) (result : Transcript) (now : String) : String :=
  String.intercalate "\n" (mdLines audio_path result now)

/-- The destination path computed by `transcribe_to_markdown`. -/
def output_path (audio_path : String) (output_dir : Option String) : String :=
  if pyTruthy output_dir then pathJoin (output_dir.getD "") (stemOf audio_path ++ ".md")
  else with_suffix audio_path ".md"

/-- The external engine: transcript on success, the raised exception's
message on failure. -/
abbrev Engine := String → Except String Transcript

/-- Observable effects of a run. -/
inductive Event where
  /-- Python `os.makedirs(output_dir, exist_ok=True)` -/
  | mkdirOut (dir : String)
  /-- the warning `警告: 路径不存在，跳过 - {input_path}` -/
  | warnSkip (path : String)
  /-- the remediation guidance printed when `whisper.load_model` raises -/
  | remediation
  /-- Python `output_path.write_text(md_content, encoding="utf-8")` -/
  | wrote (path content : String)
  /-- the log line `转录失败 {audio_file.name}: {e}` -/
  | failed (name msg : String)
  deriving DecidableEq

/-- The function `transcribe_to_markdown` for one file: if the engine call raises, the
exception propagates (`Except.error`); otherwise the rendered document is
written to the computed output path, with no existence check on the
destination. -/
def transcribe_to_markdown (engine : Engine) (now : String)
    (audio_path : String) (output_dir : Option String) :
    Except String (String × String) :=
  match engine audio_path with
  | .error e => .error e
  | .ok result => .ok (output_path audio_path output_dir, md_content audio_path result now)

/-- The argument-scanning `while` loop of `main`.  The accumulator is the
current value of `output_dir`; `args[i] == "-o" and i + 1 < len(args)`
consumes the next argument as the (new) output directory, anything else is
appended to `input_paths`. -/
def parseArgs : List String → Option String → Option String × List String
  | [], o => (o, [])
  | "-o" :: v :: rest, _ => parseArgs rest (some v)
  | a :: rest, o =>
    let r := parseArgs rest o
    (r.1, a :: r.2)

/-- Does the scan of `args` end by reaching a `"-o"` at the last position
(the `i + 1 < len(args)` test failing on it)?  When true, a further argument
appended behind `args` would be consumed as that flag's value. -/
def endsDangling : List String → Bool
  | [] => false
  | "-o" :: _ :: rest => endsDangling rest
  | [a] => a == "-o"
  | _ :: rest => endsDangling rest

/-- The values consumed by the `-o` flag during the scan, in scan order;
the scan's final `output_dir` is the last of them. -/
def flagValues : List String → List String
  | [] => []
  | "-o" :: v :: rest => v :: flagValues rest
  | _ :: rest => flagValues rest

/-- The filesystem as the program observes it: `Path.is_file`, `Path.is_dir`
and the directory listing that `glob` filters, in iteration order. -/
structure FS where
  isFile : String → Bool
  isDir : String → Bool
  children : String → List String

/-- The recognized extensions (a Python `set` in the source; list order only
affects the pre-sort collection order, which the final sort erases). -/
def AUDIO_EXTENSIONS : List String :=
  [".mp3", ".wav", ".flac", ".m4a", ".ogg", ".wma", ".aac"]

/-- Python `str.endswith(suffix)`, computed on the underlying characters. -/
def strEndsWith (s suffix : String) : Bool := suffix.data.isSuffixOf s.data

/-- Python `input_path.glob(f"*{ext}")`: the direct children whose name matches the
pattern `*ext` — i.e. ends with the literal `ext` (`fnmatch` semantics: the
`*` also matches leading dots, so hidden names are matched too).  Matches
are joined onto the directory path. -/
def glob (fs : FS) (dir : String) (ext : String) : List String :=
  ((fs.children dir).filter (fun name => strEndsWith name ext)).map
    (fun name => pathJoin dir name)

/-- The inner extension loop for one directory argument:
`for ext in AUDIO_EXTENSIONS: extend(glob(f"*{ext}")); extend(glob(f"*{ext.upper()}"))`. -/
def dirGlobs (fs : FS) (dir : String) : List String :=
  AUDIO_EXTENSIONS.foldl
    (fun l ext => l ++ glob fs dir ext ++ glob fs dir (strUpper ext)) []

/-- The audio-file collection loop of `main`: explicit files are appended
unconditionally; for a directory, `glob(f"*{ext}")` and `glob(f"*{ext.upper()}")`
are appended for each recognized extension; anything else produces a
warning. -/
def collectAudio (fs : FS) (inputs : List String) : List String × List Event :=
  inputs.foldl
    (fun acc input_path =>
      if fs.isFile input_path then (acc.1 ++ [input_path], acc.2)
      else if fs.isDir input_path then (acc.1 ++ dirGlobs fs input_path, acc.2)
      else (acc.1, acc.2 ++ [Event.warnSkip input_path]))
    ([], [])

/-- The order in which Python compares `Path` values: lexicographically on
the component tuple (`pathlib` compares `parts`, each component a string). -/
def pathLE (a b : String) : Bool := decide (pathParts a ≤ pathParts b)

/-- Python `sorted(audio_files)`: the `Path` values are sorted by their
component tuples, compared lexicographically component by component. -/
def sortedPaths (l : List String) : List String :=
  l.mergeSort pathLE

/-- The per-file loop of `main`: each file is transcribed inside
`try/except`; on success the written document is recorded, on failure the
log line with the file's name and the message. -/
def processBatch (engine : Engine) (now : String) (output_dir : Option String)
    (files : List String) : List Event :=
  files.foldl
    (fun acc audio_file =>
      match transcribe_to_markdown engine now audio_file output_dir with
      | .ok pc => acc ++ [Event.wrote pc.1 pc.2]
      | .error e => acc ++ [Event.failed (nameOf audio_file) e])
    []

/-- All of `main`.  `argv` is `sys.argv[1:]`; `load` models
`whisper.load_model("medium", device="cuda")` (`Except.error` = the
exception branch).  Returns the process exit code and the trace of
observable effects in program order. -/
def mainRun (fs : FS) (engine : Engine) (load : Except String Unit)
    (now : String) (argv : List String) : Nat × List Event :=
  if argv.isEmpty then (1, [])
  else
    let parsed := parseArgs argv none
    let output_dir := parsed.1
    let mkEv : List Event :=
      if pyTruthy output_dir then [Event.mkdirOut (output_dir.getD "")] else []
    let collected := collectAudio fs parsed.2
    let audio_files := collected.1
    let warns := collected.2
    if audio_files.isEmpty then (1, mkEv ++ warns)
    else
      match load with
      | .error _ => (1, mkEv ++ warns ++ [Event.remediation])
      | .ok _ =>
        (0, mkEv ++ warns ++ processBatch engine now output_dir (sortedPaths audio_files))

/-- The resolved audio-file list for an argument vector (pre-sort). -/
def resolvedFiles (fs : FS) (argv : List String) : List String :=
  (collectAudio fs (parseArgs argv none).2).1

/-- The timestamp text as the spec words it: `t` the truncated total seconds,
zero-padded `MM:SS` under one hour, zero-padded `HH:MM:SS` otherwise
(spec-side comparator for the `format_timestamp` claim). -/
def specTimestamp (q : ℚ) : String :=
  if q < 3600 then pad2 (⌊q⌋ / 60) ++ ":" ++ pad2 (⌊q⌋ % 60)
  else pad2 (⌊q⌋ / 3600) ++ ":" ++ pad2 (⌊q⌋ / 60 % 60) ++ ":" ++ pad2 (⌊q⌋ % 60)

/-- The document layout as the spec enumerates it, section by section
(spec-side comparator for the renderer claim): H1 heading with the stem; a
metadata block (generation timestamp, source file name, detected language,
defaulting to `"unknown"`); a horizontal rule; the H2 transcription section
with one bolded `[start - end]` range plus trimmed text per segment,
blank-line separated; a horizontal rule; the H2 plain-text section with the
trimmed full text. -/
def specDocument (result : Transcript) (audio_path now : String) : List String :=
  ["# " ++ stemOf audio_path, ""] ++
  ["> 转录时间: " ++ now ++ "  ",
   "> 源文件: `" ++ nameOf audio_path ++ "`  ",
   "> 检测语言: " ++ result.language.getD "unknown", ""] ++
  ["---", ""] ++
  (["## 转录内容", ""] ++
    (result.segments.map (fun segment =>
      ["**[" ++ format_timestamp segment.start ++ " - " ++
         format_timestamp segment.«end» ++ "]** " ++ segment.text.trim, ""])).flatten) ++
  ["---", ""] ++
  ["## 纯文本", "", result.text.trim, ""]

/-- A filesystem holding exactly one regular file `x.mp3` (used to exercise
the resolver on a duplicated argument). -/
def fsDup : FS where
  isFile := fun p => p == "x.mp3"
  isDir := fun _ => false
  children := fun _ => []

/-- A filesystem holding one directory `d` whose only entry is `a.Mp3`, a
mixed-case variant of a recognized extension. -/
def fsMixed : FS where
  isFile := fun _ => false
  isDir := fun p => p == "d"
  children := fun p => if p == "d" then ["a.Mp3"] else []

/-!  ## General helper lemmas  -/

theorem floor_div_int (q : ℚ) (n : ℤ) (hn : 0 < n) : ⌊q / (n : ℚ)⌋ = ⌊q⌋ / n := by
  have hn' : (0 : ℚ) < (n : ℚ) := by exact_mod_cast hn
  rw [Int.floor_eq_iff]
  constructor
  · rw [le_div_iff₀ hn']
    have h1 : (⌊q⌋ / n) * n ≤ ⌊q⌋ := Int.ediv_mul_le _ (by omega)
    calc ((⌊q⌋ / n : ℤ) : ℚ) * n = (((⌊q⌋ / n) * n : ℤ) : ℚ) := by push_cast; ring
    _ ≤ (⌊q⌋ : ℚ) := by exact_mod_cast h1
    _ ≤ q := Int.floor_le q
  · rw [div_lt_iff₀ hn']
    have h2 : ⌊q⌋ < (⌊q⌋ / n + 1) * n := Int.lt_ediv_add_one_mul_self _ hn
    calc q < (⌊q⌋ : ℚ) + 1 := Int.lt_floor_add_one q
    _ ≤ ((⌊q⌋ / n + 1) * n : ℤ) := by exact_mod_cast h2
    _ = ((⌊q⌋ / n : ℤ) + 1) * (n : ℚ) := by push_cast; ring

theorem floor_pymod (q : ℚ) (n : ℤ) (hn : 0 < n) : ⌊pymod q (n : ℚ)⌋ = ⌊q⌋ % n := by
  unfold pymod
  have h : (n : ℚ) * (⌊q / (n : ℚ)⌋ : ℚ) = ((n * ⌊q / (n : ℚ)⌋ : ℤ) : ℚ) := by
    push_cast; ring
  rw [h, Int.floor_sub_int, floor_div_int q n hn, Int.emod_def]

theorem splitOnSep_ne_nil (sep : Char) (cs : List Char) : splitOnSep sep cs ≠ [] := by
  cases cs with
  | nil => simp [splitOnSep]
  | cons c cs => by_cases h : c = sep <;> simp [splitOnSep, h]

theorem join_split (cs : List Char) : joinGroups (splitOnSep '/' cs) = cs := by
  induction cs with
  | nil => rfl
  | cons c cs ih =>
    rcases h : splitOnSep '/' cs with _ | ⟨g, gs⟩
    · exact absurd h (splitOnSep_ne_nil _ _)
    · rw [h] at ih
      by_cases hc : c = '/'
      · subst hc
        simp only [splitOnSep, if_pos rfl, h]
        cases gs with
        | nil => simp only [joinGroups] at ih ⊢; rw [ih]; simp
        | cons g' gs' => simp only [joinGroups] at ih ⊢; rw [ih]; simp
      · simp only [splitOnSep, if_neg hc, h, List.headD_cons, List.tail_cons]
        cases gs with
        | nil => simp only [joinGroups] at ih ⊢; rw [← ih]
        | cons g' gs' =>
          simp only [joinGroups] at ih ⊢
          rw [List.cons_append, ih]

theorem splitOnSep_append_cons (sep : Char) (xs ys : List Char) :
    splitOnSep sep (xs ++ sep :: ys) = splitOnSep sep xs ++ splitOnSep sep ys := by
  induction xs with
  | nil => simp [splitOnSep]
  | cons x xs ih =>
    rcases h : splitOnSep sep xs with _ | ⟨g, gs⟩
    · exact absurd h (splitOnSep_ne_nil _ _)
    · by_cases hx : x = sep <;> simp [splitOnSep, hx, ih, h]

theorem splitOnSep_no_sep (sep : Char) (ys : List Char) (h : sep ∉ ys) :
    splitOnSep sep ys = [ys] := by
  induction ys with
  | nil => rfl
  | cons y ys ih =>
    simp only [List.mem_cons, not_or] at h
    simp [splitOnSep, ih h.2, Ne.symm h.1]

theorem joinGroups_append_single (gs : List (List Char)) (g : List Char) (h : gs ≠ []) :
    joinGroups (gs ++ [g]) = joinGroups gs ++ '/' :: g := by
  induction gs with
  | nil => exact absurd rfl h
  | cons a gs ih =>
    cases gs with
    | nil => simp [joinGroups]
    | cons b gs' =>
      simp only [List.cons_append, List.append_eq, joinGroups] at ih ⊢
      rw [ih (by simp)]
      simp

theorem pathParts_join (dir name : String) (h : '/' ∉ name.data) :
    pathParts (dir ++ "/" ++ name) = pathParts dir ++ [name] := by
  unfold pathParts
  have hd : (dir ++ "/" ++ name).data = dir.data ++ '/' :: name.data := by
    simp [String.data_append]
  rw [hd, splitOnSep_append_cons, splitOnSep_no_sep _ _ h]
  simp

theorem nameOf_join (dir name : String) (h : '/' ∉ name.data) :
    nameOf (dir ++ "/" ++ name) = name := by
  rw [nameOf, pathParts_join dir name h, List.getLastD_concat]

theorem stemOf_join (dir name : String) (h : '/' ∉ name.data) :
    stemOf (dir ++ "/" ++ name) = (stemAndSuffix name).1 := by
  rw [stemOf, nameOf_join dir name h]

theorem joinParts_parts_single (dir y : String) :
    joinParts (pathParts dir ++ [y]) = dir ++ "/" ++ y := by
  unfold joinParts pathParts
  rw [List.map_append, List.map_map]
  have hmm : (String.data ∘ String.mk) = id := rfl
  rw [hmm, List.map_id, List.map_cons, List.map_nil,
    joinGroups_append_single _ _ (by simpa using splitOnSep_ne_nil '/' dir.data),
    join_split]
  have hd : (dir ++ "/" ++ y).data = dir.data ++ '/' :: y.data := by
    simp [String.data_append]
  rw [← hd]

theorem with_suffix_join (dir name suf : String) (h : '/' ∉ name.data) :
    with_suffix (dir ++ "/" ++ name) suf = dir ++ "/" ++ ((stemAndSuffix name).1 ++ suf) := by
  unfold with_suffix
  rw [pathParts_join dir name h, stemOf_join dir name h, List.dropLast_concat,
    joinParts_parts_single]

theorem foldl_append_flatten (f : α → List β) (l : List α) (init : List β) :
    l.foldl (fun acc x => acc ++ f x) init = init ++ (l.map f).flatten := by
  induction l generalizing init with
  | nil => simp
  | cons x xs ih => simp [ih, List.append_assoc]

theorem foldl_append2_flatMap (f g : α → List β) (l : List α) (init : List β) :
    l.foldl (fun acc x => acc ++ f x ++ g x) init =
      init ++ l.flatMap (fun x => f x ++ g x) := by
  induction l generalizing init with
  | nil => simp
  | cons x xs ih => rw [List.foldl_cons, ih]; simp [List.append_assoc]

theorem foldl_append_map (g : α → β) (l : List α) (init : List β) :
    l.foldl (fun acc x => acc ++ [g x]) init = init ++ l.map g := by
  induction l generalizing init with
  | nil => simp
  | cons x xs ih => rw [List.foldl_cons, ih]; simp

theorem parseArgs_cons_ne (x : String) (rest : List String) (o : Option String)
    (hx : x ≠ "-o") :
    parseArgs (x :: rest) o = ((parseArgs rest o).1, x :: (parseArgs rest o).2) := by
  cases rest with
  | nil => rw [parseArgs.eq_def]; split <;> simp_all
  | cons y ys => rw [parseArgs.eq_def]; split <;> simp_all

theorem dirGlobs_eq (fs : FS) (dir : String) :
    dirGlobs fs dir =
      AUDIO_EXTENSIONS.flatMap (fun ext => glob fs dir ext ++ glob fs dir (strUpper ext)) := by
  unfold dirGlobs
  rw [foldl_append2_flatMap]
  simp

theorem collectAudio_eq (fs : FS) (inputs : List String) :
    collectAudio fs inputs =
      (inputs.flatMap (fun p =>
          if fs.isFile p then [p] else if fs.isDir p then dirGlobs fs p else []),
       (inputs.filter (fun p => !fs.isFile p && !fs.isDir p)).map Event.warnSkip) := by
  unfold collectAudio
  suffices h : ∀ acc : List String × List Event,
      inputs.foldl
        (fun acc input_path =>
          if fs.isFile input_path then (acc.1 ++ [input_path], acc.2)
          else if fs.isDir input_path then (acc.1 ++ dirGlobs fs input_path, acc.2)
          else (acc.1, acc.2 ++ [Event.warnSkip input_path]))
        acc =
      (acc.1 ++ inputs.flatMap (fun p =>
          if fs.isFile p then [p] else if fs.isDir p then dirGlobs fs p else []),
       acc.2 ++ (inputs.filter (fun p => !fs.isFile p && !fs.isDir p)).map Event.warnSkip) by
    simpa using h ([], [])
  intro acc
  induction inputs generalizing acc with
  | nil => simp
  | cons p ps ih =>
    rw [List.foldl_cons]
    by_cases hf : fs.isFile p
    · simp [hf, ih, List.append_assoc]
    · by_cases hd : fs.isDir p <;> simp [hf, hd, ih, List.append_assoc]

theorem mem_glob (fs : FS) (dir ext x : String) :
    x ∈ glob fs dir ext ↔
      ∃ name, name ∈ fs.children dir ∧
        strEndsWith name ext = true ∧ x = pathJoin dir name := by
  unfold glob
  simp only [List.mem_map, List.mem_filter]
  constructor
  · rintro ⟨name, ⟨h1, h3⟩, h4⟩
    exact ⟨name, h1, h3, h4.symm⟩
  · rintro ⟨name, h1, h3, h4⟩
    exact ⟨name, ⟨h1, h3⟩, h4.symm⟩

theorem glob_perm (fs fs' : FS) (dir ext : String)
    (hch : List.Perm (fs'.children dir) (fs.children dir)) :
    List.Perm (glob fs' dir ext) (glob fs dir ext) := by
  unfold glob
  exact (hch.filter _).map _

theorem dirGlobs_perm (fs fs' : FS) (dir : String)
    (hch : List.Perm (fs'.children dir) (fs.children dir)) :
    List.Perm (dirGlobs fs' dir) (dirGlobs fs dir) := by
  rw [dirGlobs_eq, dirGlobs_eq]
  exact List.Perm.flatMap_left _ fun ext _ =>
    (glob_perm fs fs' dir ext hch).append (glob_perm fs fs' dir (strUpper ext) hch)

theorem pathParts_injective (a b : String) (h : pathParts a = pathParts b) : a = b := by
  have h2 : splitOnSep '/' a.data = splitOnSep '/' b.data := by
    have h1 := congrArg (List.map String.data) h
    simp only [pathParts, List.map_map] at h1
    have hid : (String.data ∘ String.mk) = id := rfl
    rw [hid, List.map_id, List.map_id] at h1
    exact h1
  have h3 : a.data = b.data := by
    rw [← join_split a.data, ← join_split b.data, h2]
  exact congrArg String.mk h3

theorem pathLE_trans (a b c : String) (h1 : pathLE a b = true) (h2 : pathLE b c = true) :
    pathLE a c = true := by
  simp only [pathLE, decide_eq_true_eq] at h1 h2 ⊢
  exact le_trans h1 h2

theorem pathLE_total (a b : String) : (pathLE a b || pathLE b a) = true := by
  simp only [pathLE, Bool.or_eq_true, decide_eq_true_eq]
  exact le_total _ _

theorem sortedPaths_sorted (l : List String) :
    List.Sorted (fun a b => pathParts a ≤ pathParts b) (sortedPaths l) := by
  have h := List.sorted_mergeSort pathLE_trans pathLE_total l
  exact h.imp (fun hab => by simpa [pathLE] using hab)

theorem sortedPaths_perm (l : List String) : List.Perm (sortedPaths l) l :=
  List.mergeSort_perm l pathLE

theorem sortedPaths_congr_perm (l l' : List String) (h : List.Perm l l') :
    sortedPaths l = sortedPaths l' := by
  have hanti : IsAntisymm String (fun a b => pathParts a ≤ pathParts b) :=
    ⟨fun a b h1 h2 => pathParts_injective a b (le_antisymm h1 h2)⟩
  exact @List.eq_of_perm_of_sorted _ _ hanti _ _
    ((sortedPaths_perm l).trans (h.trans (sortedPaths_perm l').symm))
    (sortedPaths_sorted l) (sortedPaths_sorted l')

theorem endsDangling_cons_ne (a : String) (rest : List String) (ha : a ≠ "-o") :
    endsDangling (a :: rest) = endsDangling rest := by
  cases rest with
  | nil => rw [endsDangling.eq_def]; split <;> simp_all [endsDangling]
  | cons y ys => rw [endsDangling.eq_def]; split <;> simp_all

theorem flagValues_cons_ne (a : String) (rest : List String) (ha : a ≠ "-o") :
    flagValues (a :: rest) = flagValues rest := by
  cases rest with
  | nil => rw [flagValues.eq_def]; split <;> simp_all [flagValues]
  | cons y ys => rw [flagValues.eq_def]; split <;> simp_all

/-!  ## Claim theorems  -/

/-- C2: for every nonnegative seconds value, `format_timestamp` returns
zero-padded `MM:SS` when the value is under one hour and zero-padded
`HH:MM:SS` otherwise, truncating (not rounding) fractional seconds
(`specTimestamp` is exactly that reading of the spec); in particular
`0 ↦ "00:00"`, `59.9 ↦ "00:59"`, `3600 ↦ "01:00:00"`,
`3661.2 ↦ "01:01:01"`. -/
theorem c2_format_timestamp :
    (∀ q : ℚ, 0 ≤ q → format_timestamp q = specTimestamp q) ∧
    format_timestamp 0 = "00:00" ∧
    format_timestamp (599 / 10) = "00:59" ∧
    format_timestamp 3600 = "01:00:00" ∧
    format_timestamp (18306 / 5) = "01:01:01" := by
  refine ⟨fun q h => ?_, ?_, ?_, ?_, ?_⟩
  · have hq0 : (0 : ℤ) ≤ ⌊q⌋ := Int.floor_nonneg.mpr h
    have c36 : ((3600 : ℤ) : ℚ) = (3600 : ℚ) := by norm_num
    have c60 : ((60 : ℤ) : ℚ) = (60 : ℚ) := by norm_num
    have e1 : ⌊q / 3600⌋ = ⌊q⌋ / 3600 := by
      rw [← c36, floor_div_int q 3600 (by norm_num)]
    have e2 : ⌊pymod q 3600⌋ = ⌊q⌋ % 3600 := by
      rw [← c36, floor_pymod q 3600 (by norm_num)]
    have e3 : ⌊pymod q 3600 / 60⌋ = (⌊q⌋ % 3600) / 60 := by
      rw [← c60, floor_div_int _ 60 (by norm_num), e2]
    have e4 : ⌊pymod q 60⌋ = ⌊q⌋ % 60 := by
      rw [← c60, floor_pymod q 60 (by norm_num)]
    have hfloor : 3600 ≤ ⌊q⌋ ↔ ¬(q < 3600) := by
      rw [not_lt, ← c36, ← Int.le_floor]
    by_cases hlt : q < 3600
    · have hb : ⌊q⌋ < 3600 := by
        by_contra hc
        exact (hfloor.mp (by omega)) hlt
      have m1 : (⌊q⌋ % 3600) / 60 = ⌊q⌋ / 60 := by omega
      have h0 : ¬(0 < ⌊q⌋ / 3600) := by omega
      simp only [format_timestamp, specTimestamp, e1, e3, e4, m1, if_neg h0, if_pos hlt]
    · have hb : 3600 ≤ ⌊q⌋ := hfloor.mpr hlt
      have m1 : (⌊q⌋ % 3600) / 60 = ⌊q⌋ / 60 % 60 := by omega
      have h0 : 0 < ⌊q⌋ / 3600 := by omega
      simp only [format_timestamp, specTimestamp, e1, e3, e4, m1, if_pos h0, if_neg hlt]
  · norm_num [format_timestamp, pymod, pad2]
    decide
  · norm_num [format_timestamp, pymod, pad2]
    decide
  · norm_num [format_timestamp, pymod, pad2]
    decide
  · norm_num [format_timestamp, pymod, pad2]
    decide

/-- Witness for C2 at the concrete input `3661.2` seconds. -/
theorem c2_format_timestamp_witness :
    format_timestamp (18306 / 5) = specTimestamp (18306 / 5) :=
  c2_format_timestamp.1 (18306 / 5) (by norm_num)

/-- C7: for every transcript and source file the rendered Markdown consists,
in order, of the H1 stem heading, the metadata block (generation timestamp,
source file name, detected language defaulting to `"unknown"`), a rule, the
H2 transcription section (bolded `[start - end]` plus trimmed text per
segment, blank-line separated), a rule, and the H2 plain-text section with
the trimmed full text verbatim — the layout `specDocument` transcribes from
the spec. -/
theorem c7_document_structure (result : Transcript) (audio_path now : String) :
    mdLines audio_path result now = specDocument result audio_path now := by
  simp only [mdLines, specDocument]
  rw [foldl_append_flatten]
  simp [List.append_assoc]

/-- C8: rendering the same transcript twice is byte-identical except for the
generation-timestamp line: dropping line index 2 gives equal documents, and
line index 2 is exactly the timestamp line. -/
theorem c8_render_idempotent (result : Transcript) (audio_path now₁ now₂ : String) :
    ((mdLines audio_path result now₁).eraseIdx 2 =
       (mdLines audio_path result now₂).eraseIdx 2) ∧
    (mdLines audio_path result now₁)[2]? = some ("> 转录时间: " ++ now₁ ++ "  ") := by
  simp only [mdLines]
  rw [foldl_append_flatten, foldl_append_flatten]
  constructor
  · simp [List.eraseIdx]
  · simp

/-- C6: the destination is `<outputDir>/<stem>.md` when an output directory
is configured — independent of the source's directory — and
`<sourceDir>/<stem>.md` beside the source otherwise; on engine success the
document is written to that path unconditionally (the writer takes no
filesystem input, so no existence check can occur). -/
theorem c6_output_path :
    (∀ (audio d : String), d ≠ "" →
        output_path audio (some d) = pathJoin d (stemOf audio ++ ".md")) ∧
    (∀ (dir₁ dir₂ name d : String), '/' ∉ name.data → d ≠ "" →
        output_path (pathJoin dir₁ name) (some d) =
          output_path (pathJoin dir₂ name) (some d)) ∧
    (∀ (dir name : String), '/' ∉ name.data →
        output_path (pathJoin dir name) none =
          pathJoin dir ((stemAndSuffix name).1 ++ ".md")) ∧
    (∀ (engine : Engine) (now audio : String) (odir : Option String) (result : Transcript),
        engine audio = Except.ok result →
        transcribe_to_markdown engine now audio odir =
          Except.ok (output_path audio odir, md_content audio result now)) := by
  refine ⟨fun audio d hd => ?_, fun dir₁ dir₂ name d hn hd => ?_,
    fun dir name hn => ?_, fun engine now audio odir result h => ?_⟩
  · have hne : d.isEmpty = false := by
      cases hh : d.isEmpty with
      | false => rfl
      | true => exact absurd ((String.isEmpty_iff d).mp hh) hd
    simp [output_path, pyTruthy, hne]
  · have hne : d.isEmpty = false := by
      cases hh : d.isEmpty with
      | false => rfl
      | true => exact absurd ((String.isEmpty_iff d).mp hh) hd
    simp only [output_path, pyTruthy, hne, Bool.not_false, if_pos]
    unfold pathJoin
    rw [stemOf_join dir₁ name hn, stemOf_join dir₂ name hn]
  · simp only [output_path, pyTruthy]
    unfold pathJoin
    rw [with_suffix_join dir name ".md" hn, stemOf_join dir name hn]
    simp
  · unfold transcribe_to_markdown
    rw [h]

/-- Witness for C6: `-o outdir` with source `talk.wav` yields
`outdir/talk.md`. -/
theorem c6_output_path_witness :
    output_path "talk.wav" (some "outdir") = pathJoin "outdir" (stemOf "talk.wav" ++ ".md") :=
  c6_output_path.1 "talk.wav" "outdir" (by decide)

/-- C10 counterexample: with `argv = ["-o", "-o"]` the final `"-o"` is the
final argument with nothing after it, yet it is consumed as the value of the
preceding `"-o"`: the output directory ends up set (to `"-o"`) and the
trailing `"-o"` is not appended to the input paths, contrary to the claim. -/
theorem c10_cex :
    (parseArgs ["-o", "-o"] none).1 = some "-o" ∧
    "-o" ∉ (parseArgs ["-o", "-o"] none).2 := by decide

/-- C10 (amended): for every argument vector, a trailing `"-o"` that the
scan does not consume as a preceding flag's value (`endsDangling` false) is
appended to the input paths leaving the output directory exactly as the
scan of the rest sets it, and — naming nothing on the filesystem — is then
warned about and skipped; when it is so consumed (`endsDangling` true) it
becomes the output-directory value instead; and in general the output
directory used is the value of the last `-o value` occurrence of the scan
(or the inherited value when there is none) — the last occurrence wins. -/
theorem c10_dash_o_handling :
    (∀ (xs : List String) (o : Option String), endsDangling xs = false →
        parseArgs (xs ++ ["-o"]) o =
          ((parseArgs xs o).1, (parseArgs xs o).2 ++ ["-o"])) ∧
    (∀ (xs : List String) (o : Option String), endsDangling xs = true →
        ∃ ys, (parseArgs xs o).2 = ys ++ ["-o"] ∧
          parseArgs (xs ++ ["-o"]) o = (some "-o", ys)) ∧
    (∀ (xs : List String) (o : Option String),
        (parseArgs xs o).1 = ((flagValues xs).getLast?).or o) ∧
    (∀ fs : FS, fs.isFile "-o" = false → fs.isDir "-o" = false →
        collectAudio fs ["-o"] = ([], [Event.warnSkip "-o"])) := by
  have hsnoc : ∀ (xs : List String) (o : Option String),
      (endsDangling xs = false →
        parseArgs (xs ++ ["-o"]) o =
          ((parseArgs xs o).1, (parseArgs xs o).2 ++ ["-o"])) ∧
      (endsDangling xs = true →
        ∃ ys, (parseArgs xs o).2 = ys ++ ["-o"] ∧
          parseArgs (xs ++ ["-o"]) o = (some "-o", ys)) := by
    intro xs o
    induction xs, o using parseArgs.induct with
    | case1 o => exact ⟨fun _ => rfl, fun h => by simp [endsDangling] at h⟩
    | case2 v rest x ih =>
      constructor
      · intro h
        have h' : endsDangling rest = false := by simpa [endsDangling] using h
        exact ih.1 h'
      · intro h
        have h' : endsDangling rest = true := by simpa [endsDangling] using h
        exact ih.2 h'
    | case3 a rest o hno ih =>
      by_cases ha : a = "-o"
      · have hrest : rest = [] := by
          cases rest with
          | nil => rfl
          | cons y ys => exact (hno y ys ha rfl).elim
        subst ha hrest
        exact ⟨fun h => by simp [endsDangling] at h, fun _ => ⟨[], rfl, rfl⟩⟩
      · constructor
        · intro h
          rw [endsDangling_cons_ne a rest ha] at h
          rw [List.cons_append, parseArgs_cons_ne a _ o ha,
            parseArgs_cons_ne a rest o ha, ih.1 h]
          simp
        · intro h
          rw [endsDangling_cons_ne a rest ha] at h
          obtain ⟨ys, h1, h2⟩ := ih.2 h
          refine ⟨a :: ys, ?_, ?_⟩
          · rw [parseArgs_cons_ne a rest o ha, h1]
            rfl
          · rw [List.cons_append, parseArgs_cons_ne a _ o ha, h2]
  refine ⟨fun xs o => (hsnoc xs o).1, fun xs o => (hsnoc xs o).2, ?_, ?_⟩
  · intro xs o
    induction xs, o using parseArgs.induct with
    | case1 o => rfl
    | case2 v rest x ih =>
      show (parseArgs rest (some v)).1 = ((flagValues ("-o" :: v :: rest)).getLast?).or x
      rw [ih]
      show ((flagValues rest).getLast?).or (some v) =
        ((v :: flagValues rest).getLast?).or x
      cases hfv : flagValues rest with
      | nil => rfl
      | cons w ws =>
        cases h2 : (w :: ws).getLast? with
        | none => simp at h2
        | some u => simp [List.getLast?_cons_cons, h2, Option.or]
    | case3 a rest o hno ih =>
      by_cases ha : a = "-o"
      · have hrest : rest = [] := by
          cases rest with
          | nil => rfl
          | cons y ys => exact (hno y ys ha rfl).elim
        subst ha hrest
        rfl
      · rw [parseArgs_cons_ne a rest o ha, flagValues_cons_ne a rest ha]
        exact ih
  · intro fs h1 h2
    rw [collectAudio_eq]
    simp [h1, h2]

/-- Witness for C10 (amended) at `argv = ["-o", "v", "-o"]`: the final
`"-o"` is unconsumed (the scan paired the first `"-o"` with `"v"`), so it
joins the inputs and the output directory stays `"v"`. -/
theorem c10_dash_o_handling_witness :
    parseArgs (["-o", "v"] ++ ["-o"]) none =
      ((parseArgs ["-o", "v"] none).1, (parseArgs ["-o", "v"] none).2 ++ ["-o"]) :=
  c10_dash_o_handling.1 ["-o", "v"] none (by decide)

/-- C4 counterexample: `a.Mp3` — a mixed-case variant of the recognized
extension `.mp3` — sitting in directory `d` is not resolved: only the
all-lowercase and all-uppercase spellings are globbed, so case-insensitive
matching fails for mixed case. -/
theorem c4_cex :
    "a.Mp3" ∈ fsMixed.children "d" ∧ (collectAudio fsMixed ["d"]).1 = [] := by
  decide

/-- C4 (amended): a regular-file argument is included unconditionally
(extension unchecked); a directory argument contributes exactly those direct
children (non-recursive) whose name ends with a recognized extension in its
all-lowercase or all-uppercase spelling — mixed-case variants such as `.Mp3`
are not matched. -/
theorem c4_extension_filter :
    (∀ (fs : FS) (p : String), fs.isFile p = true → collectAudio fs [p] = ([p], [])) ∧
    (∀ (fs : FS) (p x : String), fs.isFile p = false → fs.isDir p = true →
        ((x ∈ (collectAudio fs [p]).1) ↔
          ∃ name, name ∈ fs.children p ∧
            (∃ ext ∈ AUDIO_EXTENSIONS,
              strEndsWith name ext = true ∨ strEndsWith name (strUpper ext) = true) ∧
            x = pathJoin p name)) := by
  refine ⟨?_, ?_⟩
  · intro fs p hf
    rw [collectAudio_eq]
    simp [hf]
  · intro fs p x hf hd
    rw [collectAudio_eq]
    simp only [List.flatMap_cons, List.flatMap_nil, List.append_nil, hf, hd,
      Bool.false_eq_true, if_false, if_true]
    rw [dirGlobs_eq]
    simp only [List.mem_flatMap, List.mem_append, mem_glob]
    constructor
    · rintro ⟨ext, hext, ⟨name, h1, h3, h4⟩ | ⟨name, h1, h3, h4⟩⟩
      · exact ⟨name, h1, ⟨ext, hext, Or.inl h3⟩, h4⟩
      · exact ⟨name, h1, ⟨ext, hext, Or.inr h3⟩, h4⟩
    · rintro ⟨name, h1, ⟨ext, hext, h3 | h3⟩, h4⟩
      · exact ⟨ext, hext, Or.inl ⟨name, h1, h3, h4⟩⟩
      · exact ⟨ext, hext, Or.inr ⟨name, h1, h3, h4⟩⟩

/-- Witness for C4 (amended): an explicit regular-file argument is included
unconditionally. -/
theorem c4_extension_filter_witness :
    collectAudio fsDup ["x.mp3"] = (["x.mp3"], []) :=
  c4_extension_filter.1 fsDup "x.mp3" (by decide)

/-- C3 counterexample: the same file passed as two identical path arguments
appears twice in the processed (sorted) list — the resolver performs no
deduplication. -/
theorem c3_cex :
    List.count "x.mp3" (sortedPaths (resolvedFiles fsDup ["x.mp3", "x.mp3"])) = 2 := by
  rw [(sortedPaths_perm _).count_eq]
  decide

/-- C3 (amended): the processed list is lexicographically sorted, and is
independent of the filesystem's directory-iteration order; but it is a
permutation of the resolved occurrences — duplicates are preserved, so a
path reachable via two input arguments is processed once per occurrence. -/
theorem c3_sorted_not_dedup :
    (∀ (fs : FS) (argv : List String),
        List.Sorted (fun a b => pathParts a ≤ pathParts b)
          (sortedPaths (resolvedFiles fs argv))) ∧
    (∀ (fs fs' : FS) (argv : List String),
        (∀ p, fs'.isFile p = fs.isFile p) → (∀ p, fs'.isDir p = fs.isDir p) →
        (∀ p, List.Perm (fs'.children p) (fs.children p)) →
        sortedPaths (resolvedFiles fs' argv) = sortedPaths (resolvedFiles fs argv)) ∧
    (∀ l : List String, List.Perm (sortedPaths l) l) := by
  refine ⟨fun fs argv => sortedPaths_sorted _, ?_, sortedPaths_perm⟩
  intro fs fs' argv hF hD hC
  apply sortedPaths_congr_perm
  rw [resolvedFiles, resolvedFiles, collectAudio_eq, collectAudio_eq]
  apply List.Perm.flatMap_left
  intro p _
  rw [hF p, hD p]
  by_cases hf : fs.isFile p
  · simp [hf]
  · by_cases hd : fs.isDir p
    · simp only [hf, hd, Bool.false_eq_true, if_false, if_true]
      exact dirGlobs_perm fs fs' p (hC p)
    · simp [hf, hd]

/-- Witness for C3 (amended), instantiated at a filesystem whose directory
listing is reversed. -/
theorem c3_sorted_not_dedup_witness :
    sortedPaths (resolvedFiles
      { isFile := fun _ => false, isDir := fun p => p == "d",
        children := fun p => if p == "d" then ["b.mp3", "a.mp3"] else [] } ["d"]) =
    sortedPaths (resolvedFiles
      { isFile := fun _ => false, isDir := fun p => p == "d",
        children := fun p => if p == "d" then ["a.mp3", "b.mp3"] else [] } ["d"]) :=
  c3_sorted_not_dedup.2.1
    { isFile := fun _ => false, isDir := fun p => p == "d",
      children := fun p => if p == "d" then ["a.mp3", "b.mp3"] else [] }
    { isFile := fun _ => false, isDir := fun p => p == "d",
      children := fun p => if p == "d" then ["b.mp3", "a.mp3"] else [] }
    ["d"] (fun p => rfl) (fun p => rfl)
    (fun p => by
      by_cases h : p == "d" <;> simp [h, List.Perm.swap])

/-- C5: the exit code is 1 exactly when no arguments were supplied, no input
resolved to an audio file, or the model failed to load — in the last case
the remediation guidance is printed and no file is processed — and 0
otherwise, including runs whose individual files fail transcription. -/
theorem c5_exit_codes (fs : FS) (engine : Engine) (load : Except String Unit)
    (now : String) (argv : List String) :
    ((mainRun fs engine load now argv).1 = 1 ↔
        (argv = [] ∨ resolvedFiles fs argv = [] ∨ load.isOk = false)) ∧
    ((mainRun fs engine load now argv).1 = 0 ↔
        ¬(argv = [] ∨ resolvedFiles fs argv = [] ∨ load.isOk = false)) ∧
    (argv ≠ [] → resolvedFiles fs argv ≠ [] → load.isOk = false →
        Event.remediation ∈ (mainRun fs engine load now argv).2 ∧
        (∀ p c, Event.wrote p c ∉ (mainRun fs engine load now argv).2) ∧
        (∀ n m, Event.failed n m ∉ (mainRun fs engine load now argv).2)) := by
  by_cases ha : argv.isEmpty
  · have ha' : argv = [] := List.isEmpty_iff.mp ha
    simp [mainRun, ha, ha']
  · have ha' : argv ≠ [] := by
      intro hh
      rw [hh] at ha
      exact ha rfl
    by_cases hb : (resolvedFiles fs argv).isEmpty
    · have hb' : resolvedFiles fs argv = [] := List.isEmpty_iff.mp hb
      unfold resolvedFiles at hb
      simp [mainRun, ha, hb, ha', hb']
    · have hb' : resolvedFiles fs argv ≠ [] := by
        intro hh
        rw [resolvedFiles] at hh
        unfold resolvedFiles at hb
        rw [hh] at hb
        exact hb rfl
      have hbm : ((collectAudio fs (parseArgs argv none).2).1).isEmpty = false := by
        unfold resolvedFiles at hb
        exact Bool.not_eq_true _ ▸ Bool.of_not_eq_true hb
      cases load with
      | error e =>
        refine ⟨?_, ?_, ?_⟩
        · simp [mainRun, ha, hbm, ha', hb', Except.isOk, Except.toBool]
        · simp [mainRun, ha, hbm, ha', hb', Except.isOk, Except.toBool]
        · intro _ _ _
          have htrace : (mainRun fs engine (Except.error e) now argv).2 =
              (if pyTruthy (parseArgs argv none).1 then
                 [Event.mkdirOut ((parseArgs argv none).1.getD "")] else []) ++
              (collectAudio fs (parseArgs argv none).2).2 ++ [Event.remediation] := by
            simp [mainRun, ha, hbm]
          rw [htrace, collectAudio_eq]
          refine ⟨by simp, fun p c => ?_, fun n m => ?_⟩
          · simp only [List.mem_append, List.mem_map, List.mem_filter]
            rintro ((h | ⟨a, _, h⟩) | h)
            · split at h <;> simp_all
            · exact Event.noConfusion h
            · simp at h
          · simp only [List.mem_append, List.mem_map, List.mem_filter]
            rintro ((h | ⟨a, _, h⟩) | h)
            · split at h <;> simp_all
            · exact Event.noConfusion h
            · simp at h
      | ok u =>
        refine ⟨?_, ?_, ?_⟩
        · simp [mainRun, ha, hbm, ha', hb', Except.isOk, Except.toBool]
        · simp [mainRun, ha, hbm, ha', hb', Except.isOk, Except.toBool]
        · intro _ _ hcontra
          simp [Except.isOk, Except.toBool] at hcontra

/-- Witness for C5 on a run whose model load fails: the remediation guidance
is in the trace and no file was processed. -/
theorem c5_exit_codes_witness :
    Event.remediation ∈ (mainRun fsDup (fun _ => Except.error "eng")
        (Except.error "dl") "t" ["x.mp3"]).2 ∧
    (∀ p c, Event.wrote p c ∉ (mainRun fsDup (fun _ => Except.error "eng")
        (Except.error "dl") "t" ["x.mp3"]).2) ∧
    (∀ n m, Event.failed n m ∉ (mainRun fsDup (fun _ => Except.error "eng")
        (Except.error "dl") "t" ["x.mp3"]).2) :=
  (c5_exit_codes fsDup (fun _ => Except.error "eng") (Except.error "dl") "t"
      ["x.mp3"]).2.2 (by decide) (by decide) (by decide)

/-- C9: when a (truthy) output directory is configured, its creation is the
very first observable effect — before audio-file discovery — so even a run
that exits 1 because nothing resolved has already created the directory. -/
theorem c9_mkdir_first (fs : FS) (engine : Engine) (load : Except String Unit)
    (now : String) (argv : List String) (d : String)
    (h1 : argv ≠ []) (h2 : (parseArgs argv none).1 = some d) (h3 : d ≠ "") :
    (∃ rest, (mainRun fs engine load now argv).2 = Event.mkdirOut d :: rest) ∧
    (resolvedFiles fs argv = [] →
        (mainRun fs engine load now argv).1 = 1 ∧
        Event.mkdirOut d ∈ (mainRun fs engine load now argv).2) := by
  have ha : argv.isEmpty = false := by
    cases argv with
    | nil => exact absurd rfl h1
    | cons x xs => rfl
  have hne : d.isEmpty = false := by
    cases hh : d.isEmpty with
    | false => rfl
    | true => exact absurd ((String.isEmpty_iff d).mp hh) h3
  have hmk : pyTruthy (some d) = true := by
    simp [pyTruthy, hne]
  constructor
  · by_cases hb : ((collectAudio fs (parseArgs argv none).2).1).isEmpty
    · exact ⟨(collectAudio fs (parseArgs argv none).2).2, by
        simp [mainRun, ha, hb, hmk, h2]⟩
    · cases load with
      | error e =>
        exact ⟨(collectAudio fs (parseArgs argv none).2).2 ++ [Event.remediation], by
          simp [mainRun, ha, hb, hmk, h2]⟩
      | ok u =>
        exact ⟨(collectAudio fs (parseArgs argv none).2).2 ++
            processBatch engine now (parseArgs argv none).1
              (sortedPaths (collectAudio fs (parseArgs argv none).2).1), by
          simp [mainRun, ha, hb, hmk, h2]⟩
  · intro hres
    have hb : ((collectAudio fs (parseArgs argv none).2).1).isEmpty = true := by
      rw [resolvedFiles] at hres
      simp [hres]
    refine ⟨by simp [mainRun, ha, hb], ?_⟩
    simp [mainRun, ha, hb, hmk, h2]

/-- Witness for C9 at `argv = ["-o", "out", "nope"]` over a filesystem where
`nope` does not exist: the run exits 1 with the output directory created
first. -/
theorem c9_mkdir_first_witness :
    (∃ rest, (mainRun fsDup (fun _ => Except.error "boom") (Except.ok ()) "t"
        ["-o", "out", "nope"]).2 = Event.mkdirOut "out" :: rest) ∧
    (resolvedFiles fsDup ["-o", "out", "nope"] = [] →
        (mainRun fsDup (fun _ => Except.error "boom") (Except.ok ()) "t"
            ["-o", "out", "nope"]).1 = 1 ∧
        Event.mkdirOut "out" ∈ (mainRun fsDup (fun _ => Except.error "boom")
            (Except.ok ()) "t" ["-o", "out", "nope"]).2) :=
  c9_mkdir_first fsDup (fun _ => Except.error "boom") (Except.ok ()) "t"
    ["-o", "out", "nope"] "out" (by decide) (by decide) (by decide)

/-- C1: each resolved file yields exactly one event — its written document on
engine success, or a failure log carrying its name and the error message on
engine failure — so one file's failure never suppresses another file's
output nor aborts the batch, and a run whose model loaded and whose inputs
resolved exits 0 no matter how many files fail. -/
theorem c1_fault_isolation :
    (∀ (engine : Engine) (now : String) (odir : Option String) (files : List String),
        processBatch engine now odir files =
          files.map (fun f =>
            match engine f with
            | .ok result => Event.wrote (output_path f odir) (md_content f result now)
            | .error e => Event.failed (nameOf f) e)) ∧
    (∀ (fs : FS) (engine : Engine) (now : String) (argv : List String),
        argv ≠ [] → resolvedFiles fs argv ≠ [] →
        (mainRun fs engine (Except.ok ()) now argv).1 = 0) := by
  constructor
  · intro engine now odir files
    unfold processBatch
    have hstep : (fun (acc : List Event) audio_file =>
        match transcribe_to_markdown engine now audio_file odir with
        | .ok pc => acc ++ [Event.wrote pc.1 pc.2]
        | .error e => acc ++ [Event.failed (nameOf audio_file) e]) =
        fun (acc : List Event) audio_file =>
          acc ++ [(match engine audio_file with
            | .ok result =>
                Event.wrote (output_path audio_file odir) (md_content audio_file result now)
            | .error e => Event.failed (nameOf audio_file) e)] := by
      funext acc f
      unfold transcribe_to_markdown
      cases engine f <;> rfl
    rw [hstep, foldl_append_map]
    simp
  · intro fs engine now argv h1 h2
    have ha : argv.isEmpty = false := by
      cases argv with
      | nil => exact absurd rfl h1
      | cons x xs => rfl
    have hb : ((collectAudio fs (parseArgs argv none).2).1).isEmpty = false := by
      rw [resolvedFiles] at h2
      cases hh : ((collectAudio fs (parseArgs argv none).2).1).isEmpty with
      | false => rfl
      | true => exact absurd (List.isEmpty_iff.mp hh) h2
    simp [mainRun, ha, hb]

/-- Witness for C1: a single resolved file whose transcription fails still
leaves the batch exiting 0. -/
theorem c1_fault_isolation_witness :
    (mainRun fsDup (fun _ => Except.error "boom") (Except.ok ()) "t" ["x.mp3"]).1 = 0 :=
  c1_fault_isolation.2 fsDup (fun _ => Except.error "boom") "t" ["x.mp3"]
    (by decide) (by decide)

end Whisper
